import Mathlib

/-!
Verification of the CycSafe core engines against their source.

This file shallowly embeds the computational core of the repository:

* `alertsService.ts` — the alert aggregation cache (`fetchOnce`): merge of the
  backend / weather / official-incident sources, expiry filtering,
  deduplication by `clusterId` keeping the larger `expiresAt`, and the
  descending sort, plus the geofencing adapter `fetchVicIncidents`.
* `RiskMatrix.ts` — the historical risk scorer `computeRiskLevel` with its
  heuristic fallback `weatherHeuristic` and threshold map `categorize`.
* `AlertsPage.tsx` — the geometric primitives `pointInsidePolygon`,
  `minDistanceToRingM`, `pointToPolygonDistanceM`, `pointToMultiPolygonDistanceM`.

Numbers that the TypeScript source manipulates as IEEE doubles are embedded as
rationals (`ℚ`) where the code performs exact comparisons and arithmetic on
values that are exactly representable; the one genuinely transcendental piece,
the haversine great-circle distance (`Math.sin`/`Math.cos`/`Math.atan2`), is
abstracted as an explicit distance-function parameter `dist` wherever it is
consumed, so every statement below is proved for an arbitrary distance
function, the haversine included.  JavaScript `NaN`/missing values are
embedded as `Option`.
-/

namespace CycSafe

/-! ## Data model: `AlertLite` (alertsService.ts, lines 4–21)

All fields that an untrusted payload may omit are `Option`; the service reads
them defensively (`a?.clusterId || ""`, `Number(a?.expiresAt || 0)`). -/

structure AlertLite where
  clusterId    : Option String
  incidentType : String
  severity     : Option String
  expiresAt    : Option Int          -- epoch seconds
  lat          : Option ℚ
  lng          : Option ℚ
  ackable      : Option Bool
  description  : Option String
  address      : Option String
  agoText      : Option String
deriving DecidableEq, Repr

/-- `String(a?.clusterId || "")`: an absent clusterId, and the empty string
itself (falsy in JS), both coerce to `""`. -/
def idOf (a : AlertLite) : String := a.clusterId.getD ""

/-- `Number(a?.expiresAt || 0)`: an absent `expiresAt` (and the falsy `0`)
reads as `0`. -/
def expOf (a : AlertLite) : Int := a.expiresAt.getD 0

/-! ## The merge / dedup / sort pipeline (`fetchOnce`, lines 181–202) -/

/-- Step 4 first half: `[...backend, ...weather, ...vic].filter(a => Number(a?.expiresAt || 0) > now)`. -/
def expiryFilter (now : Int) (l : List AlertLite) : List AlertLite :=
  l.filter (fun a => now < expOf a)

/-- The duplicate-resolution rule of the dedup loop:
`keep = Number(a?.expiresAt || 0) >= Number(prev?.expiresAt || 0) ? a : prev`.
`none` is the state before the first record with this key arrives. -/
def upd : Option AlertLite → AlertLite → Option AlertLite
  | none,   a => some a
  | some p, a => if expOf p ≤ expOf a then some a else some p

/-- The JS `Map<string, AlertLite>` of the dedup loop, embedded as an
association list in insertion order (JS `Map` preserves insertion order and
`Array.from(map.values())` reads it back in that order). -/
abbrev IdMap := List (String × AlertLite)

def keysOf (m : IdMap) : List String := m.map (fun p => p.1)

/-- `byId.get(id)` -/
def mapGet (m : IdMap) (k : String) : Option AlertLite :=
  (m.find? (fun p => p.1 == k)).map (fun p => p.2)

/-- `byId.set(id, v)`: overwrite in place if the key exists (its position in
insertion order is kept), else append. -/
def mapSet (m : IdMap) (k : String) (v : AlertLite) : IdMap :=
  if m.any (fun p => p.1 == k) then
    m.map (fun p => if p.1 == k then (k, v) else p)
  else
    m ++ [(k, v)]

/-- One iteration of the dedup `for` loop (lines 187–197):
skip records whose id coerces to `""`, otherwise keep the record with the
larger `expiresAt` (ties go to the newly arriving record). -/
def dedupStep (m : IdMap) (a : AlertLite) : IdMap :=
  if idOf a = "" then m
  else
    match mapGet m (idOf a) with
    | none      => mapSet m (idOf a) a
    | some prev => mapSet m (idOf a) (if expOf prev ≤ expOf a then a else prev)

/-- The whole dedup pass: fold the loop over the merged list, then
`Array.from(byId.values())`. -/
def dedupe (l : List AlertLite) : List AlertLite :=
  (l.foldl dedupStep []).map (fun p => p.2)

/-- Stable descending insertion: the JS sort
`merged.sort((x, y) => Number(y?.expiresAt || 0) - Number(x?.expiresAt || 0))`
is a stable sort by descending `expiresAt`; a stable insertion sort has the
same graph. -/
def insertDesc (a : AlertLite) : List AlertLite → List AlertLite
  | []      => [a]
  | b :: bs => if expOf b ≤ expOf a then a :: b :: bs else b :: insertDesc a bs

def sortDesc : List AlertLite → List AlertLite
  | []      => []
  | a :: as => insertDesc a (sortDesc as)

/-- Steps 4–5 of `fetchOnce` on the concatenated record list: expiry filter,
dedup by `clusterId`, descending sort.  This is the list that step 6 publishes
(`cs.alerts.list`) together with its length (`cs.alerts.total`). -/
def mergePipeline (now : Int) (l : List AlertLite) : List AlertLite :=
  sortDesc (dedupe (expiryFilter now l))

/-- The concatenation of the three sources in step 4:
`[...backend, ...weather, ...vic]`. -/
def fetchOnceMerge (now : Int) (backend weather vic : List AlertLite) : List AlertLite :=
  mergePipeline now (backend ++ weather ++ vic)

/-- A convenient fully-defaulted record for concrete test inputs. -/
def mkRec (id : Option String) (ex : Option Int) (descr : Option String) : AlertLite :=
  { clusterId := id, incidentType := "report", severity := none, expiresAt := ex
    lat := none, lng := none, ackable := none, description := descr
    address := none, agoText := none }

example : mergePipeline 0 [mkRec (some "x") (some 100) none, mkRec (some "x") (some 200) none]
    = [mkRec (some "x") (some 200) none] := by decide

example : mergePipeline 0 [mkRec (some "x") (some 100) (some "a"), mkRec (some "x") (some 100) (some "b")]
    = [mkRec (some "x") (some 100) (some "b")] := by decide

example : mergePipeline 0 [mkRec (some "x") (some 100) (some "b"), mkRec (some "x") (some 100) (some "a")]
    = [mkRec (some "x") (some 100) (some "a")] := by decide

example : mergePipeline 50 [mkRec (some "x") (some 50) none, mkRec (some "y") (some 51) none]
    = [mkRec (some "y") (some 51) none] := by decide

example : mergePipeline 0 [mkRec none (some 100) none, mkRec (some "") (some 100) none] = [] := by decide

/-! ## Association-map lemmas -/

theorem keysOf_cons (p : String × AlertLite) (t : IdMap) :
    keysOf (p :: t) = p.1 :: keysOf t := rfl

theorem mapGet_nil (k : String) : mapGet [] k = none := rfl

theorem mapGet_cons (p : String × AlertLite) (t : IdMap) (k : String) :
    mapGet (p :: t) k = if (p.1 == k) = true then some p.2 else mapGet t k := by
  unfold mapGet
  cases h : (p.1 == k) with
  | true => simp [List.find?_cons, h]
  | false => simp [List.find?_cons, h]

theorem mapAny_iff (m : IdMap) (k : String) :
    (m.any (fun p => p.1 == k) = true) ↔ k ∈ keysOf m := by
  simp [List.any_eq_true, keysOf, List.mem_map]

theorem keysOf_map_rewrite (m : IdMap) (k : String) (v : AlertLite) :
    keysOf (m.map (fun p => if p.1 == k then (k, v) else p)) = keysOf m := by
  induction m with
  | nil => rfl
  | cons p t ih =>
    rw [List.map_cons, keysOf_cons, keysOf_cons, ih]
    by_cases hpk : (p.1 == k) = true
    · rw [if_pos hpk]
      have hp : p.1 = k := by simpa using hpk
      rw [hp]
    · rw [if_neg hpk]

theorem mapGet_rewrite_self (m : IdMap) (k : String) (v : AlertLite) (h : k ∈ keysOf m) :
    mapGet (m.map (fun p => if p.1 == k then (k, v) else p)) k = some v := by
  induction m with
  | nil => simp [keysOf] at h
  | cons p t ih =>
    rw [List.map_cons, mapGet_cons]
    by_cases hpk : (p.1 == k) = true
    · rw [if_pos hpk]
      have hkk : (((k, v) : String × AlertLite).1 == k) = true := by simp
      rw [hkk, if_pos rfl]
    · rw [if_neg hpk]
      have hcond : ((p : String × AlertLite).1 == k) = false := by
        simpa using hpk
      rw [hcond]
      simp only [Bool.false_eq_true, if_false]
      apply ih
      rcases List.mem_cons.mp (by rw [keysOf_cons] at h; exact h) with h1 | h1
      · exact absurd (by simpa using h1.symm) hpk
      · exact h1

theorem mapGet_rewrite_ne (m : IdMap) (k k' : String) (v : AlertLite) (h : k' ≠ k) :
    mapGet (m.map (fun p => if p.1 == k then (k, v) else p)) k' = mapGet m k' := by
  induction m with
  | nil => rfl
  | cons p t ih =>
    rw [List.map_cons, mapGet_cons, mapGet_cons]
    by_cases hpk : (p.1 == k) = true
    · rw [if_pos hpk]
      have hp : p.1 = k := by simpa using hpk
      have h1 : (((k, v) : String × AlertLite).1 == k') = false := by
        exact beq_eq_false_iff_ne.mpr (fun hc => h hc.symm)
      have h2 : (p.1 == k') = false := by
        rw [hp]; exact beq_eq_false_iff_ne.mpr (fun hc => h hc.symm)
      rw [h1, h2]
      simp only [Bool.false_eq_true, if_false]
      exact ih
    · rw [if_neg hpk]
      by_cases hp' : (p.1 == k') = true
      · rw [if_pos hp', if_pos hp']
      · rw [if_neg hp', if_neg hp']
        exact ih

theorem mapGet_eq_none_iff (m : IdMap) (k : String) :
    mapGet m k = none ↔ k ∉ keysOf m := by
  induction m with
  | nil => simp [mapGet, keysOf]
  | cons p t ih =>
    rw [mapGet_cons, keysOf_cons]
    by_cases hpk : (p.1 == k) = true
    · rw [if_pos hpk]
      have hk : k ∈ p.1 :: keysOf t := by
        have hp : p.1 = k := by simpa using hpk
        rw [hp]; exact List.mem_cons_self _ _
      simp [hk]
    · rw [if_neg hpk, ih]
      have hne : ¬ k = p.1 := fun hc => hpk (by simpa using hc.symm)
      simp [List.mem_cons, hne]

theorem mapGet_append_single (m : IdMap) (k : String) (v : AlertLite) (h : k ∉ keysOf m) :
    mapGet (m ++ [(k, v)]) k = some v := by
  induction m with
  | nil => simp [mapGet_cons]
  | cons p t ih =>
    rw [List.cons_append, mapGet_cons]
    have hpk : (p.1 == k) = false := by
      refine beq_eq_false_iff_ne.mpr ?_
      intro hc
      exact h (by rw [keysOf_cons, hc]; exact List.mem_cons_self _ _)
    rw [hpk]
    simp only [Bool.false_eq_true, if_false]
    exact ih (fun hc => h (by rw [keysOf_cons]; exact List.mem_cons_of_mem _ hc))

theorem mapGet_append_single_ne (m : IdMap) (k k' : String) (v : AlertLite) (h : k' ≠ k) :
    mapGet (m ++ [(k, v)]) k' = mapGet m k' := by
  induction m with
  | nil =>
    rw [List.nil_append, mapGet_cons, mapGet_nil,
      show (((k, v) : String × AlertLite).1 == k') = false from
        beq_eq_false_iff_ne.mpr (fun hc => h hc.symm)]
    simp
  | cons p t ih =>
    rw [List.cons_append, mapGet_cons, mapGet_cons]
    by_cases hp' : (p.1 == k') = true
    · rw [if_pos hp', if_pos hp']
    · rw [if_neg hp', if_neg hp']
      exact ih

theorem keysOf_mapSet_mem (m : IdMap) (k : String) (v : AlertLite) (h : k ∈ keysOf m) :
    keysOf (mapSet m k v) = keysOf m := by
  unfold mapSet
  rw [if_pos ((mapAny_iff m k).mpr h)]
  exact keysOf_map_rewrite m k v

theorem keysOf_mapSet_not_mem (m : IdMap) (k : String) (v : AlertLite) (h : k ∉ keysOf m) :
    keysOf (mapSet m k v) = keysOf m ++ [k] := by
  unfold mapSet
  rw [if_neg (fun hc => h ((mapAny_iff m k).mp hc))]
  simp [keysOf]

theorem mapGet_mapSet_self (m : IdMap) (k : String) (v : AlertLite) :
    mapGet (mapSet m k v) k = some v := by
  unfold mapSet
  by_cases h : m.any (fun p => p.1 == k) = true
  · rw [if_pos h]
    exact mapGet_rewrite_self m k v ((mapAny_iff m k).mp h)
  · rw [if_neg h]
    exact mapGet_append_single m k v (fun hc => h ((mapAny_iff m k).mpr hc))

theorem mapGet_mapSet_ne (m : IdMap) (k k' : String) (v : AlertLite) (h : k' ≠ k) :
    mapGet (mapSet m k v) k' = mapGet m k' := by
  unfold mapSet
  by_cases hmem : m.any (fun p => p.1 == k) = true
  · rw [if_pos hmem]
    exact mapGet_rewrite_ne m k k' v h
  · rw [if_neg hmem]
    exact mapGet_append_single_ne m k k' v h

theorem mem_mapSet (m : IdMap) (k : String) (v : AlertLite) (p : String × AlertLite)
    (h : p ∈ mapSet m k v) : p ∈ m ∨ p = (k, v) := by
  unfold mapSet at h
  by_cases hmem : m.any (fun q => q.1 == k) = true
  · rw [if_pos hmem] at h
    rcases List.mem_map.mp h with ⟨q, hq, hqe⟩
    by_cases hqk : (q.1 == k) = true
    · right; rw [if_pos hqk] at hqe; exact hqe.symm
    · left; rw [if_neg hqk] at hqe; exact hqe ▸ hq
  · rw [if_neg hmem] at h
    rcases List.mem_append.mp h with h | h
    · exact Or.inl h
    · right; simpa using h

/-! ## The dedup fold: invariants and per-key characterization -/

theorem mapGet_eq_some_mem (m : IdMap) (k : String) (v : AlertLite)
    (h : mapGet m k = some v) : (k, v) ∈ m := by
  unfold mapGet at h
  cases hf : List.find? (fun p => p.1 == k) m with
  | none => rw [hf] at h; simp at h
  | some q =>
    rw [hf] at h
    simp at h
    have hq : q ∈ m := List.mem_of_find?_eq_some hf
    have hqk : q.1 = k := by simpa using List.find?_some hf
    have hkv : (k, v) = q := by rw [← hqk, ← h]
    rw [hkv]; exact hq

/-- Invariant of the JS `Map`: keys are pairwise distinct, each stored record's
coerced id equals its key, and no key is the empty string. -/
def GoodMap (m : IdMap) : Prop :=
  (keysOf m).Nodup ∧ ∀ p ∈ m, idOf p.2 = p.1 ∧ p.1 ≠ ""

theorem goodMap_nil : GoodMap [] := by
  constructor
  · exact List.nodup_nil
  · intro p hp; cases hp

theorem goodMap_mapSet (m : IdMap) (k : String) (v : AlertLite)
    (hm : GoodMap m) (hv : idOf v = k) (hk : k ≠ "") : GoodMap (mapSet m k v) := by
  obtain ⟨hnd, hmem⟩ := hm
  by_cases h : k ∈ keysOf m
  · refine ⟨?_, ?_⟩
    · rw [keysOf_mapSet_mem m k v h]; exact hnd
    · intro p hp
      rcases mem_mapSet m k v p hp with hp' | hp'
      · exact hmem p hp'
      · rw [hp']; exact ⟨hv, hk⟩
  · refine ⟨?_, ?_⟩
    · rw [keysOf_mapSet_not_mem m k v h]
      rw [List.nodup_append]
      exact ⟨hnd, List.nodup_singleton k, by
        intro a ha hb
        rw [List.mem_singleton] at hb
        exact h (hb ▸ ha)⟩
    · intro p hp
      rcases mem_mapSet m k v p hp with hp' | hp'
      · exact hmem p hp'
      · rw [hp']; exact ⟨hv, hk⟩

theorem goodMap_dedupStep (m : IdMap) (a : AlertLite) (hm : GoodMap m) :
    GoodMap (dedupStep m a) := by
  unfold dedupStep
  by_cases h : idOf a = ""
  · rw [if_pos h]; exact hm
  · rw [if_neg h]
    cases hget : mapGet m (idOf a) with
    | none => exact goodMap_mapSet m (idOf a) a hm rfl h
    | some prev =>
      have hprev : idOf prev = idOf a :=
        (hm.2 _ (mapGet_eq_some_mem m (idOf a) prev hget)).1
      show GoodMap (mapSet m (idOf a) (if expOf prev ≤ expOf a then a else prev))
      by_cases hle : expOf prev ≤ expOf a
      · rw [if_pos hle]; exact goodMap_mapSet m (idOf a) a hm rfl h
      · rw [if_neg hle]; exact goodMap_mapSet m (idOf a) prev hm hprev h

theorem goodMap_dedupFold (l : List AlertLite) (m : IdMap) (hm : GoodMap m) :
    GoodMap (l.foldl dedupStep m) := by
  induction l generalizing m with
  | nil => exact hm
  | cons a t ih => exact ih (dedupStep m a) (goodMap_dedupStep m a hm)

/-- Records in the fold's accumulator come from the initial map or from the
processed records. -/
theorem mem_dedupFold (l : List AlertLite) (m : IdMap) (p : String × AlertLite)
    (hp : p ∈ l.foldl dedupStep m) : p ∈ m ∨ p.2 ∈ l := by
  induction l generalizing m with
  | nil => exact Or.inl hp
  | cons a t ih =>
    rw [List.foldl_cons] at hp
    rcases ih (dedupStep m a) hp with h | h
    · unfold dedupStep at h
      by_cases hid : idOf a = ""
      · rw [if_pos hid] at h; exact Or.inl h
      · rw [if_neg hid] at h
        cases hget : mapGet m (idOf a) with
        | none =>
          rw [hget] at h
          rcases mem_mapSet m (idOf a) a p h with h' | h'
          · exact Or.inl h'
          · right; rw [h']; exact List.mem_cons_self _ _
        | some prev =>
          rw [hget] at h
          have hqmem : (idOf a, prev) ∈ m := mapGet_eq_some_mem m (idOf a) prev hget
          have h2 : p ∈ mapSet m (idOf a) (if expOf prev ≤ expOf a then a else prev) := h
          by_cases hle : expOf prev ≤ expOf a
          · rw [if_pos hle] at h2
            rcases mem_mapSet m (idOf a) a p h2 with h' | h'
            · exact Or.inl h'
            · right; rw [h']; exact List.mem_cons_self _ _
          · rw [if_neg hle] at h2
            rcases mem_mapSet m (idOf a) prev p h2 with h' | h'
            · exact Or.inl h'
            · left; rw [h']; exact hqmem
    · exact Or.inr (List.mem_cons_of_mem _ h)

/-- Per-key view of one dedup step, phrased through `upd`. -/
theorem mapGet_dedupStep (m : IdMap) (a : AlertLite) (k : String) (hk : k ≠ "") :
    mapGet (dedupStep m a) k =
      if idOf a = k then upd (mapGet m k) a else mapGet m k := by
  unfold dedupStep
  by_cases hid : idOf a = ""
  · rw [if_pos hid, if_neg (show ¬ idOf a = k from fun hc => hk (by rw [← hc]; exact hid))]
  · rw [if_neg hid]
    by_cases hak : idOf a = k
    · subst hak
      rw [if_pos rfl]
      cases hget : mapGet m (idOf a) with
      | none => exact mapGet_mapSet_self m (idOf a) a
      | some prev =>
        show mapGet (mapSet m (idOf a) (if expOf prev ≤ expOf a then a else prev)) (idOf a)
          = upd (some prev) a
        simp only [upd]
        by_cases hle : expOf prev ≤ expOf a
        · rw [if_pos hle, if_pos hle]
          exact mapGet_mapSet_self m (idOf a) a
        · rw [if_neg hle, if_neg hle]
          exact mapGet_mapSet_self m (idOf a) prev
    · rw [if_neg hak]
      cases hget : mapGet m (idOf a) with
      | none => exact mapGet_mapSet_ne m (idOf a) k a (fun hc => hak hc.symm)
      | some prev =>
        show mapGet (mapSet m (idOf a) (if expOf prev ≤ expOf a then a else prev)) k = mapGet m k
        by_cases hle : expOf prev ≤ expOf a
        · rw [if_pos hle]
          exact mapGet_mapSet_ne m (idOf a) k a (fun hc => hak hc.symm)
        · rw [if_neg hle]
          exact mapGet_mapSet_ne m (idOf a) k prev (fun hc => hak hc.symm)

/-- Per-key view of the whole dedup fold: the lookup at `k` is the `upd`-fold
of exactly the records whose id coerces to `k`. -/
theorem mapGet_dedupFold (l : List AlertLite) (m : IdMap) (k : String) (hk : k ≠ "") :
    mapGet (l.foldl dedupStep m) k =
      List.foldl upd (mapGet m k) (l.filter (fun a => idOf a == k)) := by
  induction l generalizing m with
  | nil => rfl
  | cons a t ih =>
    rw [List.foldl_cons, ih (dedupStep m a), mapGet_dedupStep m a k hk]
    by_cases hak : idOf a = k
    · rw [if_pos hak, List.filter_cons_of_pos (by simpa using hak), List.foldl_cons]
    · rw [if_neg hak, List.filter_cons_of_neg (by simpa using hak)]

/-! ## The `upd` fold: bounds, membership, idempotence -/

theorem upd_ne_none (w : Option AlertLite) (a : AlertLite) : upd w a ≠ none := by
  cases w with
  | none => simp [upd]
  | some p =>
    simp only [upd]
    by_cases hle : expOf p ≤ expOf a
    · rw [if_pos hle]; simp
    · rw [if_neg hle]; simp

theorem upd_exp_le (w : Option AlertLite) (a v : AlertLite) (h : upd w a = some v) :
    expOf a ≤ expOf v := by
  cases w with
  | none => simp only [upd] at h; injection h with h; rw [← h]
  | some p =>
    simp only [upd] at h
    by_cases hle : expOf p ≤ expOf a
    · rw [if_pos hle] at h; injection h with h; rw [← h]
    · rw [if_neg hle] at h; injection h with h; rw [← h]; omega

theorem upd_exp_mono (p : AlertLite) (a v : AlertLite) (h : upd (some p) a = some v) :
    expOf p ≤ expOf v := by
  simp only [upd] at h
  by_cases hle : expOf p ≤ expOf a
  · rw [if_pos hle] at h; injection h with h; rw [← h]; omega
  · rw [if_neg hle] at h; injection h with h; rw [← h]

theorem upds_isSome (w : Option AlertLite) (l : List AlertLite) (v : AlertLite)
    (hw : w = some v) : ∃ z, List.foldl upd w l = some z := by
  induction l generalizing w v with
  | nil => exact ⟨v, hw⟩
  | cons a t ih =>
    rw [List.foldl_cons]
    cases hu : upd w a with
    | none => exact absurd hu (upd_ne_none w a)
    | some z => exact ih (some z) z rfl

theorem upds_eq_none (w : Option AlertLite) (l : List AlertLite)
    (h : List.foldl upd w l = none) : w = none ∧ l = [] := by
  cases l with
  | nil => exact ⟨h, rfl⟩
  | cons a t =>
    exfalso
    rw [List.foldl_cons] at h
    cases hu : upd w a with
    | none => exact absurd hu (upd_ne_none w a)
    | some z =>
      obtain ⟨z', hz'⟩ := upds_isSome (upd w a) t z hu
      rw [hz'] at h; cases h

theorem upds_mono (p : AlertLite) (l : List AlertLite) (v : AlertLite)
    (h : List.foldl upd (some p) l = some v) : expOf p ≤ expOf v := by
  induction l generalizing p with
  | nil => injection h with h; rw [← h]
  | cons a t ih =>
    rw [List.foldl_cons] at h
    cases hu : upd (some p) a with
    | none => exact absurd hu (upd_ne_none _ a)
    | some z =>
      rw [hu] at h
      exact le_trans (upd_exp_mono p a z hu) (ih z h)

/-- The fold's result bounds every processed record's expiry. -/
theorem upds_bounds (w : Option AlertLite) (l : List AlertLite) (v : AlertLite)
    (h : List.foldl upd w l = some v) : ∀ b ∈ l, expOf b ≤ expOf v := by
  induction l generalizing w with
  | nil => intro b hb; cases hb
  | cons a t ih =>
    intro b hb
    rw [List.foldl_cons] at h
    rcases List.mem_cons.mp hb with hb' | hb'
    · subst hb'
      cases hu : upd w b with
      | none => exact absurd hu (upd_ne_none w b)
      | some z =>
        rw [hu] at h
        exact le_trans (upd_exp_le w b z hu) (upds_mono z t v h)
    · exact ih (upd w a) h b hb'

/-- The fold's result is the initial value or one of the processed records. -/
theorem upds_mem (w : Option AlertLite) (l : List AlertLite) (v : AlertLite)
    (h : List.foldl upd w l = some v) : w = some v ∨ v ∈ l := by
  induction l generalizing w with
  | nil => exact Or.inl h
  | cons a t ih =>
    rw [List.foldl_cons] at h
    rcases ih (upd w a) h with h' | h'
    · cases w with
      | none =>
        simp only [upd] at h'
        injection h' with h'
        exact Or.inr (by rw [← h']; exact List.mem_cons_self _ _)
      | some p =>
        simp only [upd] at h'
        by_cases hle : expOf p ≤ expOf a
        · rw [if_pos hle] at h'
          injection h' with h'
          exact Or.inr (by rw [← h']; exact List.mem_cons_self _ _)
        · rw [if_neg hle] at h'
          exact Or.inl h'
    · exact Or.inr (List.mem_cons_of_mem _ h')

/-- Folding the same record list a second time over its own fold result is a
no-op: the accumulated winner's expiry already dominates the list, and on ties
the winner (being the last record attaining the maximum) wins again. -/
theorem upds_idem (l : List AlertLite) (w : Option AlertLite) :
    List.foldl upd (List.foldl upd w l) l = List.foldl upd w l := by
  induction l using List.reverseRecOn generalizing w with
  | nil => rfl
  | append_singleton ys a ih =>
    simp only [List.foldl_append, List.foldl_cons, List.foldl_nil]
    cases hW : List.foldl upd w ys with
    | none =>
      obtain ⟨hw, hys⟩ := upds_eq_none w ys hW
      subst hys
      subst hw
      simp [upd]
    | some p =>
      by_cases hle : expOf p ≤ expOf a
      · have hWa : upd (some p) a = some a := by simp only [upd]; rw [if_pos hle]
        rw [hWa]
        cases hZ : List.foldl upd (some a) ys with
        | none => exact absurd (upds_eq_none _ _ hZ).1 (by simp)
        | some z =>
          have hz : expOf z ≤ expOf a := by
            rcases upds_mem (some a) ys z hZ with h' | h'
            · injection h' with h'; rw [h']
            · exact le_trans (upds_bounds w ys p hW z h') hle
          simp only [upd]
          rw [if_pos hz]
      · have hWa : upd (some p) a = some p := by simp only [upd]; rw [if_neg hle]
        rw [hWa, ← hW, ih w, hW, hWa]

/-! ## Association-list extensionality and dedup idempotence -/

theorem assoc_ext (m₁ : IdMap) (m₂ : IdMap) (hk : keysOf m₁ = keysOf m₂)
    (hnd : (keysOf m₁).Nodup)
    (hget : ∀ k ∈ keysOf m₁, mapGet m₁ k = mapGet m₂ k) : m₁ = m₂ := by
  induction m₁ generalizing m₂ with
  | nil =>
    cases m₂ with
    | nil => rfl
    | cons q t₂ => simp [keysOf] at hk
  | cons p t₁ ih =>
    cases m₂ with
    | nil => simp [keysOf] at hk
    | cons q t₂ =>
      rw [keysOf_cons, keysOf_cons] at hk
      injection hk with hk1 hk2
      have hv : p.2 = q.2 := by
        have hh := hget p.1 (by rw [keysOf_cons]; exact List.mem_cons_self _ _)
        rw [mapGet_cons, mapGet_cons] at hh
        rw [if_pos (by simp)] at hh
        rw [if_pos (by simp [hk1.symm])] at hh
        injection hh
      have hpq : p = q := by
        cases p; cases q
        simp only at hk1 hv
        rw [hk1, hv]
      rw [keysOf_cons] at hnd
      rcases List.pairwise_cons.mp hnd with ⟨hp1, hnd'⟩
      have htail : t₁ = t₂ := by
        apply ih t₂ hk2 hnd'
        intro k hkt
        have hne : ¬(p.1 == k) = true := by
          simp only [beq_iff_eq]
          intro hc
          exact (hp1 k hkt) hc
        have hne' : ¬(q.1 == k) = true := by rw [← hk1]; exact hne
        have hh := hget k (by rw [keysOf_cons]; exact List.mem_cons_of_mem _ hkt)
        rw [mapGet_cons, mapGet_cons, if_neg hne, if_neg hne'] at hh
        exact hh
      rw [hpq, htail]

theorem goodMap_key_ne_empty (m : IdMap) (hm : GoodMap m) (k : String)
    (hk : k ∈ keysOf m) : k ≠ "" := by
  rcases List.mem_map.mp hk with ⟨p, hp, hpk⟩
  rw [← hpk]
  exact (hm.2 p hp).2

theorem mem_keysOf_dedupStep (m : IdMap) (a : AlertLite) (k : String) :
    k ∈ keysOf (dedupStep m a) ↔ k ∈ keysOf m ∨ (k = idOf a ∧ idOf a ≠ "") := by
  unfold dedupStep
  by_cases hid : idOf a = ""
  · rw [if_pos hid]
    simp [hid]
  · rw [if_neg hid]
    cases hget : mapGet m (idOf a) with
    | none =>
      show k ∈ keysOf (mapSet m (idOf a) a) ↔ _
      have habs : idOf a ∉ keysOf m := (mapGet_eq_none_iff m (idOf a)).mp hget
      rw [keysOf_mapSet_not_mem m (idOf a) a habs]
      simp [hid, List.mem_append]
    | some prev =>
      show k ∈ keysOf (mapSet m (idOf a) (if expOf prev ≤ expOf a then a else prev)) ↔ _
      have hpres : idOf a ∈ keysOf m := by
        by_contra hc
        rw [(mapGet_eq_none_iff m (idOf a)).mpr hc] at hget
        cases hget
      rw [keysOf_mapSet_mem m (idOf a) _ hpres]
      constructor
      · exact Or.inl
      · rintro (h | ⟨h1, _⟩)
        · exact h
        · rw [h1]; exact hpres

theorem mem_keysOf_dedupFold (l : List AlertLite) (m : IdMap) (k : String) :
    k ∈ keysOf (l.foldl dedupStep m) ↔
      k ∈ keysOf m ∨ ∃ a ∈ l, idOf a = k ∧ idOf a ≠ "" := by
  induction l generalizing m with
  | nil => simp
  | cons a t ih =>
    rw [List.foldl_cons, ih (dedupStep m a)]
    rw [mem_keysOf_dedupStep m a k]
    constructor
    · rintro ((h | ⟨h1, h2⟩) | ⟨b, hb, h1, h2⟩)
      · exact Or.inl h
      · exact Or.inr ⟨a, List.mem_cons_self _ _, h1.symm, h2⟩
      · exact Or.inr ⟨b, List.mem_cons_of_mem _ hb, h1, h2⟩
    · rintro (h | ⟨b, hb, h1, h2⟩)
      · exact Or.inl (Or.inl h)
      · rcases List.mem_cons.mp hb with hb' | hb'
        · subst hb'
          exact Or.inl (Or.inr ⟨h1.symm, h2⟩)
        · exact Or.inr ⟨b, hb', h1, h2⟩

theorem keysOf_dedupFold_stable (l : List AlertLite) (m : IdMap)
    (h : ∀ a ∈ l, idOf a = "" ∨ idOf a ∈ keysOf m) :
    keysOf (l.foldl dedupStep m) = keysOf m := by
  induction l generalizing m with
  | nil => rfl
  | cons a t ih =>
    rw [List.foldl_cons]
    have hstep : keysOf (dedupStep m a) = keysOf m := by
      unfold dedupStep
      by_cases hid : idOf a = ""
      · rw [if_pos hid]
      · rw [if_neg hid]
        rcases h a (List.mem_cons_self _ _) with h1 | h1
        · exact absurd h1 hid
        · cases hget : mapGet m (idOf a) with
          | none => exact absurd h1 ((mapGet_eq_none_iff m (idOf a)).mp hget)
          | some prev =>
            show keysOf (mapSet m (idOf a) (if expOf prev ≤ expOf a then a else prev)) = keysOf m
            exact keysOf_mapSet_mem m (idOf a) _ h1
    have ht : ∀ b ∈ t, idOf b = "" ∨ idOf b ∈ keysOf (dedupStep m a) := by
      intro b hb
      rcases h b (List.mem_cons_of_mem _ hb) with h1 | h1
      · exact Or.inl h1
      · right; rw [hstep]; exact h1
    rw [ih (dedupStep m a) ht, hstep]

/-- Running the dedup fold a second time over its own result changes nothing. -/
theorem dedupFold_self_idem (l : List AlertLite) :
    l.foldl dedupStep (l.foldl dedupStep []) = l.foldl dedupStep [] := by
  have hgood : GoodMap (l.foldl dedupStep []) := goodMap_dedupFold l [] goodMap_nil
  have hkeys : ∀ a ∈ l, idOf a = "" ∨ idOf a ∈ keysOf (l.foldl dedupStep []) := by
    intro a ha
    by_cases hid : idOf a = ""
    · exact Or.inl hid
    · right
      exact (mem_keysOf_dedupFold l [] (idOf a)).mpr (Or.inr ⟨a, ha, rfl, hid⟩)
  apply assoc_ext
  · exact keysOf_dedupFold_stable l (l.foldl dedupStep []) hkeys
  · exact (goodMap_dedupFold l (l.foldl dedupStep []) hgood).1
  · intro k hk
    have hk' : k ∈ keysOf (l.foldl dedupStep []) := by
      rw [← keysOf_dedupFold_stable l (l.foldl dedupStep []) hkeys]
      exact hk
    have hkne : k ≠ "" := goodMap_key_ne_empty _ hgood k hk'
    rw [mapGet_dedupFold l (l.foldl dedupStep []) k hkne,
      mapGet_dedupFold l [] k hkne, mapGet_nil]
    exact upds_idem (l.filter (fun a => idOf a == k)) none

theorem dedupe_append_self (l : List AlertLite) : dedupe (l ++ l) = dedupe l := by
  unfold dedupe
  rw [List.foldl_append, dedupFold_self_idem]

/-! ## Sort lemmas -/

theorem insertDesc_perm (a : AlertLite) (l : List AlertLite) :
    List.Perm (insertDesc a l) (a :: l) := by
  induction l with
  | nil => exact List.Perm.refl _
  | cons b bs ih =>
    unfold insertDesc
    by_cases h : expOf b ≤ expOf a
    · rw [if_pos h]
    · rw [if_neg h]
      exact (ih.cons b).trans (List.Perm.swap a b bs)

theorem sortDesc_perm (l : List AlertLite) : List.Perm (sortDesc l) l := by
  induction l with
  | nil => exact List.Perm.refl _
  | cons a as ih => exact (insertDesc_perm a (sortDesc as)).trans (ih.cons a)

theorem insertDesc_pairwise (a : AlertLite) (l : List AlertLite)
    (hl : l.Pairwise (fun x y => expOf y ≤ expOf x)) :
    (insertDesc a l).Pairwise (fun x y => expOf y ≤ expOf x) := by
  induction l with
  | nil => simp [insertDesc]
  | cons b bs ih =>
    unfold insertDesc
    rcases List.pairwise_cons.mp hl with ⟨hb, hbs⟩
    by_cases h : expOf b ≤ expOf a
    · rw [if_pos h]
      refine List.pairwise_cons.mpr ⟨?_, hl⟩
      intro c hc
      rcases List.mem_cons.mp hc with hc' | hc'
      · rw [hc']; exact h
      · exact le_trans (hb c hc') h
    · rw [if_neg h]
      refine List.pairwise_cons.mpr ⟨?_, ih hbs⟩
      intro c hc
      rcases List.mem_cons.mp ((insertDesc_perm a bs).mem_iff.mp hc) with hc' | hc'
      · rw [hc']; omega
      · exact hb c hc'

theorem sortDesc_pairwise (l : List AlertLite) :
    (sortDesc l).Pairwise (fun x y => expOf y ≤ expOf x) := by
  induction l with
  | nil => exact List.Pairwise.nil
  | cons a as ih => exact insertDesc_pairwise a (sortDesc as) ih

/-! ## Derived facts about `dedupe` -/

theorem mem_dedupe (l : List AlertLite) (a : AlertLite) (h : a ∈ dedupe l) : a ∈ l := by
  unfold dedupe at h
  rcases List.mem_map.mp h with ⟨p, hp, hpe⟩
  rcases mem_dedupFold l [] p hp with h' | h'
  · cases h'
  · rw [← hpe]; exact h'

theorem mem_dedupe_id_ne (l : List AlertLite) (a : AlertLite) (h : a ∈ dedupe l) :
    idOf a ≠ "" := by
  unfold dedupe at h
  rcases List.mem_map.mp h with ⟨p, hp, hpe⟩
  have hm := goodMap_dedupFold l [] goodMap_nil
  rw [← hpe, (hm.2 p hp).1]
  exact (hm.2 p hp).2

theorem dedupe_ids_nodup (l : List AlertLite) : ((dedupe l).map idOf).Nodup := by
  have hm := goodMap_dedupFold l [] goodMap_nil
  unfold dedupe
  rw [List.map_map]
  have heq : (l.foldl dedupStep []).map (idOf ∘ (fun p => p.2))
      = keysOf (l.foldl dedupStep []) := by
    apply List.map_congr_left
    intro p hp
    exact (hm.2 p hp).1
  rw [heq]
  exact hm.1

theorem goodMap_tail (p : String × AlertLite) (t : IdMap) (hm : GoodMap (p :: t)) :
    GoodMap t := by
  constructor
  · have h1 := hm.1
    rw [keysOf_cons] at h1
    exact (List.nodup_cons.mp h1).2
  · intro q hq
    exact hm.2 q (List.mem_cons_of_mem _ hq)

/-- In a good map, the records carrying key `k` are exactly the looked-up one. -/
theorem dedupe_filter_key (m : IdMap) (hm : GoodMap m) (k : String) (v : AlertLite)
    (h : mapGet m k = some v) :
    (m.map (fun p => p.2)).filter (fun a => idOf a == k) = [v] := by
  induction m with
  | nil => cases h
  | cons p t ih =>
    rw [mapGet_cons] at h
    have hkeys := hm.1
    rw [keysOf_cons] at hkeys
    have hknotin := (List.nodup_cons.mp hkeys).1
    have hpid : idOf p.2 = p.1 := (hm.2 p (List.mem_cons_self _ _)).1
    by_cases hpk : (p.1 == k) = true
    · rw [if_pos hpk] at h
      injection h with h
      have hp1k : p.1 = k := by simpa using hpk
      rw [List.map_cons, List.filter_cons_of_pos (by simp [hpid, hp1k]), h]
      have hrest : (t.map (fun p => p.2)).filter (fun a => idOf a == k) = [] := by
        rw [List.filter_eq_nil_iff]
        intro a ha
        rcases List.mem_map.mp ha with ⟨q, hq, hqe⟩
        have hqid : idOf q.2 = q.1 := (hm.2 q (List.mem_cons_of_mem _ hq)).1
        rw [← hqe, hqid]
        simp only [beq_iff_eq]
        intro hc
        exact hknotin (by rw [hp1k, ← hc]; exact List.mem_map.mpr ⟨q, hq, rfl⟩)
      rw [hrest]
    · rw [if_neg hpk] at h
      rw [List.map_cons, List.filter_cons_of_neg (by simp only [hpid]; simpa using hpk)]
      exact ih (goodMap_tail p t hm) h

/-! ## Claim C8: idempotence of the merge pipeline -/

/-- C8: the merge–dedup–sort pipeline is idempotent: for every list of
`AlertRecord`s `S`, running the pipeline on `S ++ S` yields the same
deduplicated, sorted result as running it on `S` once. -/
theorem c8_merge_idempotent (now : Int) (l : List AlertLite) :
    mergePipeline now (l ++ l) = mergePipeline now l := by
  unfold mergePipeline expiryFilter
  rw [List.filter_append, dedupe_append_self]

/-! ## Claim C2: published snapshot well-formedness -/

/-- C2: every published snapshot is well-formed: the coerced `clusterId`
values are pairwise distinct, records are ordered descending by `expiresAt`,
and every member's `expiresAt` is strictly greater than the cycle's "now". -/
theorem c2_snapshot_invariants (now : Int) (l : List AlertLite) :
    ((mergePipeline now l).map idOf).Nodup ∧
    (mergePipeline now l).Pairwise (fun x y => expOf y ≤ expOf x) ∧
    ∀ a ∈ mergePipeline now l, now < expOf a := by
  refine ⟨?_, ?_, ?_⟩
  · unfold mergePipeline
    have hperm := (sortDesc_perm (dedupe (expiryFilter now l))).map idOf
    exact hperm.nodup_iff.mpr (dedupe_ids_nodup (expiryFilter now l))
  · exact sortDesc_pairwise _
  · intro a ha
    unfold mergePipeline at ha
    have ha' : a ∈ dedupe (expiryFilter now l) := (sortDesc_perm _).mem_iff.mp ha
    have ha'' : a ∈ expiryFilter now l := mem_dedupe _ a ha'
    unfold expiryFilter at ha''
    have := List.mem_filter.mp ha''
    exact of_decide_eq_true this.2

theorem c2_witness :
    ((mergePipeline 0 [mkRec (some "x") (some 100) none]).map idOf).Nodup ∧
    (0 : Int) < expOf (mkRec (some "x") (some 100) none) :=
  ⟨(c2_snapshot_invariants 0 [mkRec (some "x") (some 100) none]).1,
   (c2_snapshot_invariants 0 [mkRec (some "x") (some 100) none]).2.2
     (mkRec (some "x") (some 100) none) (by decide)⟩

/-! ## Claim C10: records whose clusterId coerces to `""` are dropped -/

theorem dedupFold_drop_empty_ids (l : List AlertLite) (m : IdMap) :
    (l.filter (fun a => !(idOf a == ""))).foldl dedupStep m = l.foldl dedupStep m := by
  induction l generalizing m with
  | nil => rfl
  | cons a t ih =>
    by_cases hid : idOf a = ""
    · rw [List.filter_cons_of_neg (by simp [hid]), List.foldl_cons,
        show dedupStep m a = m from by unfold dedupStep; rw [if_pos hid]]
      exact ih m
    · rw [List.filter_cons_of_pos (by simp [hid]), List.foldl_cons, List.foldl_cons]
      exact ih (dedupStep m a)

/-- C10 (implicit): a record whose `clusterId` is absent, empty, or coerces to
the empty string is silently dropped: removing all such records from the input
does not change the published list, and no published record has an empty
coerced id — even when its `expiresAt` is in the future. -/
theorem c10_empty_id_dropped (now : Int) (l : List AlertLite) :
    mergePipeline now (l.filter (fun a => !(idOf a == ""))) = mergePipeline now l ∧
    ∀ a ∈ mergePipeline now l, idOf a ≠ "" := by
  constructor
  · unfold mergePipeline expiryFilter dedupe
    rw [List.filter_comm, dedupFold_drop_empty_ids]
  · intro a ha
    unfold mergePipeline at ha
    exact mem_dedupe_id_ne _ a ((sortDesc_perm _).mem_iff.mp ha)

theorem c10_witness :
    mergePipeline 0 ([mkRec none (some 100) none, mkRec (some "x") (some 50) none].filter
        (fun a => !(idOf a == ""))) =
      mergePipeline 0 [mkRec none (some 100) none, mkRec (some "x") (some 50) none] ∧
    idOf (mkRec (some "x") (some 50) none) ≠ "" :=
  ⟨(c10_empty_id_dropped 0 [mkRec none (some 100) none, mkRec (some "x") (some 50) none]).1,
   (c10_empty_id_dropped 0 [mkRec none (some 100) none, mkRec (some "x") (some 50) none]).2
     (mkRec (some "x") (some 50) none) (by decide)⟩

/-! ## Claim C1: dedup keeps a maximal-expiry record (corrected) -/

/-- C1, counterexample to order-independence: two records share
`clusterId = "x"` and the same `expiresAt = 100` but different descriptions;
the pipeline keeps whichever arrived last, so the chosen record depends on the
concatenation order of the sources. -/
theorem c1_counterexample :
    mergePipeline 0 [mkRec (some "x") (some 100) (some "a"),
        mkRec (some "x") (some 100) (some "b")]
      = [mkRec (some "x") (some 100) (some "b")] ∧
    mergePipeline 0 [mkRec (some "x") (some 100) (some "b"),
        mkRec (some "x") (some 100) (some "a")]
      = [mkRec (some "x") (some 100) (some "a")] ∧
    mkRec (some "x") (some 100) (some "a") ≠ mkRec (some "x") (some 100) (some "b") := by
  refine ⟨by decide, by decide, by decide⟩

/-- C1 (amended): whenever some unexpired record carries the (nonempty)
clusterId `k`, the published snapshot contains exactly one record with id `k`;
it is one of the unexpired records with id `k`, and its `expiresAt` is maximal
among them.  (On ties of `expiresAt` the record arriving last is kept, so the
chosen record itself — though not its expiry — depends on arrival order.) -/
theorem c1_amended_max_expiry (now : Int) (l : List AlertLite) (k : String)
    (hk : k ≠ "")
    (hx : ∃ a ∈ expiryFilter now l, idOf a = k) :
    ∃ b, (mergePipeline now l).filter (fun a => idOf a == k) = [b] ∧
      b ∈ (expiryFilter now l).filter (fun a => idOf a == k) ∧
      ∀ a ∈ (expiryFilter now l).filter (fun a => idOf a == k), expOf a ≤ expOf b := by
  obtain ⟨a0, ha0, hid0⟩ := hx
  have hm := goodMap_dedupFold (expiryFilter now l) [] goodMap_nil
  have hget : mapGet ((expiryFilter now l).foldl dedupStep []) k
      = List.foldl upd none ((expiryFilter now l).filter (fun a => idOf a == k)) := by
    rw [mapGet_dedupFold _ [] k hk, mapGet_nil]
  have hlk : a0 ∈ (expiryFilter now l).filter (fun a => idOf a == k) :=
    List.mem_filter.mpr ⟨ha0, by simp [hid0]⟩
  obtain ⟨v, hv⟩ : ∃ v, List.foldl upd none ((expiryFilter now l).filter
      (fun a => idOf a == k)) = some v := by
    cases hcase : List.foldl upd none ((expiryFilter now l).filter (fun a => idOf a == k)) with
    | none =>
      have := (upds_eq_none none _ hcase).2
      rw [this] at hlk
      cases hlk
    | some v => exact ⟨v, rfl⟩
  refine ⟨v, ?_, ?_, ?_⟩
  · have hfd : (dedupe (expiryFilter now l)).filter (fun a => idOf a == k) = [v] := by
      unfold dedupe
      exact dedupe_filter_key _ hm k v (by rw [hget]; exact hv)
    have hperm := ((sortDesc_perm (dedupe (expiryFilter now l))).filter
      (fun a => idOf a == k))
    rw [hfd] at hperm
    exact List.perm_singleton.mp hperm
  · rcases upds_mem none _ v hv with h' | h'
    · cases h'
    · exact h'
  · exact upds_bounds none _ v hv

theorem c1_witness :
    ∃ b, (mergePipeline 0 [mkRec (some "x") (some 100) none,
        mkRec (some "x") (some 200) none]).filter (fun a => idOf a == "x") = [b] ∧
      b ∈ (expiryFilter 0 [mkRec (some "x") (some 100) none,
        mkRec (some "x") (some 200) none]).filter (fun a => idOf a == "x") ∧
      ∀ a ∈ (expiryFilter 0 [mkRec (some "x") (some 100) none,
        mkRec (some "x") (some 200) none]).filter (fun a => idOf a == "x"),
        expOf a ≤ expOf b :=
  c1_amended_max_expiry 0 _ "x" (by decide)
    ⟨mkRec (some "x") (some 100) none, by decide, by decide⟩

/-! ## RiskMatrix.ts: the historical risk scorer

`haversineM` (Math.sin / Math.cos / Math.atan2 on doubles) is not exactly
representable in an embedding over ℚ, so the distance function is an explicit
parameter `dist` of type `Dist`; every theorem below holds for an arbitrary
distance function, in particular for the haversine. -/

abbrev Dist := ℚ → ℚ → ℚ → ℚ → ℚ

inductive RiskLevel where
  | HIGH
  | MED
  | LOW
deriving DecidableEq, Repr

structure Context where
  lat : ℚ
  lon : ℚ
  hour : Int               -- 0..23
  month : Int              -- 1..12
  dow : Int                -- 0..6
  weatherCode : Option Int -- 1 clear, 2 rain, 7 wind
  roadSurfaceCode : Option Int
deriving DecidableEq, Repr

structure AccidentRow where
  Accident_No : String
  LAT : Option ℚ           -- `none` models a non-finite coordinate
  LON : Option ℚ
  Accident_hour : Int
  Accident_month : Int
  DAY_OF_WEEK : Int
deriving DecidableEq, Repr

structure AtmosRow where
  Accident_No : String
  ATMOSPH_COND : Int
deriving DecidableEq, Repr

structure SurfaceRow where
  Accident_No : String
  SURFACE_COND : Int
deriving DecidableEq, Repr

structure RiskData where
  accidents : Option (List AccidentRow)
  atmosphere : Option (List AtmosRow)
  surface : Option (List SurfaceRow)
deriving DecidableEq, Repr

def DENOM : ℚ := 172115

/-- The `atmIndex` Map built by `for (const r of data.atmosphere || [])
atmIndex.set(r.Accident_No, r.ATMOSPH_COND)`: the last row wins. -/
def atmLookup (rows : List AtmosRow) (k : String) : Option Int :=
  rows.foldl (fun acc r => if r.Accident_No == k then some r.ATMOSPH_COND else acc) none

def surfLookup (rows : List SurfaceRow) (k : String) : Option Int :=
  rows.foldl (fun acc r => if r.Accident_No == k then some r.SURFACE_COND else acc) none

/-- `ctx.code != null && joined != null && joined !== ctx.code` — true exactly
on a positive mismatch of two present condition codes. -/
def condMismatch (c r : Option Int) : Bool :=
  match c, r with
  | some cv, some rv => rv != cv
  | _, _ => false

/-- The `within` filter closure of `computeRiskLevel` (RiskMatrix.ts 42–57). -/
def within (dist : Dist) (ctx : Context) (atmRows : List AtmosRow)
    (surfRows : List SurfaceRow) (acc : AccidentRow) : Bool :=
  match acc.LAT, acc.LON with
  | some la, some lo =>
    if dist ctx.lat ctx.lon la lo > 250 then false
    else if acc.Accident_hour != ctx.hour then false
    else if acc.Accident_month != ctx.month then false
    else if acc.DAY_OF_WEEK != ctx.dow then false
    else if condMismatch ctx.weatherCode (atmLookup atmRows acc.Accident_No) then false
    else if condMismatch ctx.roadSurfaceCode (surfLookup surfRows acc.Accident_No) then false
    else true
  | _, _ => false

/-- `weatherName` (RiskMatrix.ts 66–78). -/
def weatherName (code : Option Int) : String :=
  match code with
  | some 1 => "Clear"
  | some 2 => "Raining"
  | some 3 => "Snowing"
  | some 4 => "Fog"
  | some 5 => "Smoke"
  | some 6 => "Dust"
  | some 7 => "Strong winds"
  | some 9 => "Not known"
  | _ => "Unknown"

/-- `weatherHeuristic` (RiskMatrix.ts 81–85). -/
def weatherHeuristic (code : Option Int) (hour : Option Int) : RiskLevel :=
  if code = some 7 then .HIGH
  else if code = some 2 then
    match hour with
    | some h => if h ≥ 18 ∨ h ≤ 6 then .HIGH else .MED
    | none => .MED
  else .LOW

/-- `categorize` (RiskMatrix.ts 86–90). -/
def categorize (p : ℚ) : RiskLevel :=
  if p < 1/1000 then .LOW
  else if p < 2/1000 then .MED
  else .HIGH

/-- The `matched` count of the dataset path. -/
def matchedCount (dist : Dist) (ctx : Context) (d : RiskData) : Nat :=
  ((d.accidents.getD []).filter
    (within dist ctx (d.atmosphere.getD []) (d.surface.getD []))).length

/-- The body of `computeRiskLevel` once a dataset argument is present: the
guard `!Array.isArray(data.accidents) || data.accidents.length === 0` falls
back to the heuristic, else the dataset path counts the filtered records. -/
def computeRiskLevelWithData (dist : Dist) (ctx : Context) (d : RiskData) :
    RiskLevel × String :=
  match d.accidents with
  | none => (weatherHeuristic ctx.weatherCode (some ctx.hour), weatherName ctx.weatherCode)
  | some [] => (weatherHeuristic ctx.weatherCode (some ctx.hour), weatherName ctx.weatherCode)
  | some (a :: t) =>
    (categorize ((((a :: t).filter
        (within dist ctx (d.atmosphere.getD []) (d.surface.getD []))).length : ℚ) / DENOM),
     weatherName ctx.weatherCode)

/-- `computeRiskLevel` (RiskMatrix.ts 20–63). -/
def computeRiskLevel (dist : Dist) (ctx : Context) (data : Option RiskData) :
    RiskLevel × String :=
  match data with
  | none => (weatherHeuristic ctx.weatherCode (some ctx.hour), weatherName ctx.weatherCode)
  | some d => computeRiskLevelWithData dist ctx d

def distZero : Dist := fun _ _ _ _ => 0

def ctx0 : Context := ⟨0, 0, 12, 5, 3, none, none⟩

def row0 : AccidentRow := ⟨"r", some 0, some 0, 12, 5, 3⟩

example : within distZero ctx0 [] [] row0 = true := by decide

example : (computeRiskLevel distZero ⟨0, 0, 2, 5, 3, some 2, none⟩ none).1
    = RiskLevel.HIGH := by decide

example : (computeRiskLevel distZero ⟨0, 0, 12, 5, 3, some 2, none⟩ none).1
    = RiskLevel.MED := by decide

theorem condMismatch_eq_false_iff (c r : Option Int) :
    condMismatch c r = false ↔ c = none ∨ r = none ∨ r = c := by
  cases c with
  | none => simp [condMismatch]
  | some cv =>
    cases r with
    | none => simp [condMismatch]
    | some rv =>
      simp [condMismatch]

/-! ## Claim C3: the dataset-path record filter -/

/-- C3: in the dataset path a historical record is matched iff its
coordinates are present (finite), its distance to the context is at most
250 m, its hour / month / day-of-week equal the context's exactly, and each of
the two optional condition codes either has an absent side or agrees —
absence never disqualifies, only a positive mismatch does. -/
theorem c3_dataset_filter_iff (dist : Dist) (ctx : Context)
    (atmRows : List AtmosRow) (surfRows : List SurfaceRow) (acc : AccidentRow) :
    within dist ctx atmRows surfRows acc = true ↔
      (∃ la lo, acc.LAT = some la ∧ acc.LON = some lo ∧
        dist ctx.lat ctx.lon la lo ≤ 250 ∧
        acc.Accident_hour = ctx.hour ∧ acc.Accident_month = ctx.month ∧
        acc.DAY_OF_WEEK = ctx.dow ∧
        (ctx.weatherCode = none ∨ atmLookup atmRows acc.Accident_No = none ∨
          atmLookup atmRows acc.Accident_No = ctx.weatherCode) ∧
        (ctx.roadSurfaceCode = none ∨ surfLookup surfRows acc.Accident_No = none ∨
          surfLookup surfRows acc.Accident_No = ctx.roadSurfaceCode)) := by
  cases hLA : acc.LAT with
  | none =>
    simp only [within, hLA]
    constructor
    · intro h; cases h
    · rintro ⟨la, lo, hla, _⟩; cases hla
  | some la =>
    cases hLO : acc.LON with
    | none =>
      simp only [within, hLA, hLO]
      constructor
      · intro h; cases h
      · rintro ⟨la', lo', _, hlo, _⟩; cases hlo
    | some lo =>
      simp only [within, hLA, hLO]
      constructor
      · intro h
        by_cases h1 : dist ctx.lat ctx.lon la lo > 250
        · rw [if_pos h1] at h; cases h
        · rw [if_neg h1] at h
          by_cases h2 : (acc.Accident_hour != ctx.hour) = true
          · rw [if_pos h2] at h; cases h
          · rw [if_neg h2] at h
            by_cases h3 : (acc.Accident_month != ctx.month) = true
            · rw [if_pos h3] at h; cases h
            · rw [if_neg h3] at h
              by_cases h4 : (acc.DAY_OF_WEEK != ctx.dow) = true
              · rw [if_pos h4] at h; cases h
              · rw [if_neg h4] at h
                by_cases h5 :
                    condMismatch ctx.weatherCode (atmLookup atmRows acc.Accident_No) = true
                · rw [if_pos h5] at h; cases h
                · rw [if_neg h5] at h
                  by_cases h6 : condMismatch ctx.roadSurfaceCode
                      (surfLookup surfRows acc.Accident_No) = true
                  · rw [if_pos h6] at h; cases h
                  · refine ⟨la, lo, rfl, rfl, not_lt.mp h1, ?_, ?_, ?_, ?_, ?_⟩
                    · simpa using h2
                    · simpa using h3
                    · simpa using h4
                    · exact (condMismatch_eq_false_iff _ _).mp (Bool.not_eq_true _ ▸ h5)
                    · exact (condMismatch_eq_false_iff _ _).mp (Bool.not_eq_true _ ▸ h6)
      · rintro ⟨la', lo', hla, hlo, hd, hh, hm, hw, hatm, hsurf⟩
        injection hla with hla
        injection hlo with hlo
        subst hla; subst hlo
        rw [if_neg (not_lt.mpr hd),
          if_neg (show ¬(acc.Accident_hour != ctx.hour) = true by simpa using hh),
          if_neg (show ¬(acc.Accident_month != ctx.month) = true by simpa using hm),
          if_neg (show ¬(acc.DAY_OF_WEEK != ctx.dow) = true by simpa using hw),
          if_neg (show ¬condMismatch ctx.weatherCode
            (atmLookup atmRows acc.Accident_No) = true by
              simp [(condMismatch_eq_false_iff _ _).mpr hatm]),
          if_neg (show ¬condMismatch ctx.roadSurfaceCode
            (surfLookup surfRows acc.Accident_No) = true by
              simp [(condMismatch_eq_false_iff _ _).mpr hsurf])]

theorem c3_witness : within distZero ctx0 [] [] row0 = true :=
  (c3_dataset_filter_iff distZero ctx0 [] [] row0).mpr
    ⟨0, 0, rfl, rfl, by unfold distZero; norm_num, rfl, rfl, rfl, Or.inl rfl, Or.inl rfl⟩

/-! ## Claim C4: dataset-path thresholds -/

theorem computeRiskLevel_dataset (dist : Dist) (ctx : Context) (d : RiskData)
    (accs : List AccidentRow) (hacc : d.accidents = some accs) (hne : accs ≠ []) :
    computeRiskLevel dist ctx (some d)
      = (categorize ((matchedCount dist ctx d : ℚ) / DENOM), weatherName ctx.weatherCode) := by
  cases accs with
  | nil => exact absurd rfl hne
  | cons a t =>
    show computeRiskLevelWithData dist ctx d = _
    unfold computeRiskLevelWithData matchedCount
    rw [hacc]
    rfl

/-- C4: in the dataset path with a nonempty accident list, the risk level is
the categorization of `matched / 172115`: strictly below 0.001 is LOW, at
least 0.001 and strictly below 0.002 is MED, at least 0.002 is HIGH; and a
dataset in which exactly 200 records pass all filters scores MED. -/
theorem c4_dataset_thresholds (dist : Dist) (ctx : Context) (d : RiskData)
    (accs : List AccidentRow) (hacc : d.accidents = some accs) (hne : accs ≠ []) :
    ((computeRiskLevel dist ctx (some d)).1
        = categorize ((matchedCount dist ctx d : ℚ) / DENOM)) ∧
    ((matchedCount dist ctx d : ℚ) / DENOM < 1/1000 →
        (computeRiskLevel dist ctx (some d)).1 = RiskLevel.LOW) ∧
    (1/1000 ≤ (matchedCount dist ctx d : ℚ) / DENOM →
        (matchedCount dist ctx d : ℚ) / DENOM < 2/1000 →
        (computeRiskLevel dist ctx (some d)).1 = RiskLevel.MED) ∧
    (2/1000 ≤ (matchedCount dist ctx d : ℚ) / DENOM →
        (computeRiskLevel dist ctx (some d)).1 = RiskLevel.HIGH) ∧
    (matchedCount dist ctx d = 200 →
        (computeRiskLevel dist ctx (some d)).1 = RiskLevel.MED) := by
  rw [computeRiskLevel_dataset dist ctx d accs hacc hne]
  refine ⟨rfl, ?_, ?_, ?_, ?_⟩
  · intro h
    unfold categorize
    rw [if_pos h]
  · intro h1 h2
    unfold categorize
    rw [if_neg (not_lt.mpr h1), if_pos h2]
  · intro h
    unfold categorize
    rw [if_neg (not_lt.mpr (le_trans (by norm_num) h)), if_neg (not_lt.mpr h)]
  · intro h200
    rw [h200]
    unfold categorize DENOM
    rw [if_neg (by norm_num), if_pos (by norm_num)]

def data200 : RiskData := ⟨some (List.replicate 200 row0), none, none⟩

theorem c4_witness :
    (computeRiskLevel distZero ctx0 (some data200)).1 = RiskLevel.MED := by
  have hall : ∀ a ∈ List.replicate 200 row0, within distZero ctx0 [] [] a = true := by
    intro a ha
    rw [List.eq_of_mem_replicate ha]
    decide
  have h200 : matchedCount distZero ctx0 data200 = 200 := by
    show (List.filter (within distZero ctx0 [] []) (List.replicate 200 row0)).length = 200
    rw [List.filter_eq_self.mpr hall, List.length_replicate]
  exact (c4_dataset_thresholds distZero ctx0 data200 (List.replicate 200 row0) rfl
    (by
      intro hc
      have hlen := congrArg List.length hc
      rw [List.length_replicate] at hlen
      exact absurd hlen (by decide))).2.2.2.2 h200

/-! ## Claim C5: the no-dataset heuristic -/

/-- C5: when the dataset is absent, has no accident list, or an empty one,
the scorer falls back to the weather heuristic: wind (7) is HIGH at every
hour; rain (2) is HIGH for `hour >= 18 or hour <= 6` and MED otherwise; every
other weather code (including absence) is LOW. -/
theorem c5_heuristic_fallback (dist : Dist) (ctx : Context) (data : Option RiskData)
    (h : data = none ∨ ∃ d, data = some d ∧ (d.accidents = none ∨ d.accidents = some [])) :
    (ctx.weatherCode = some 7 → (computeRiskLevel dist ctx data).1 = RiskLevel.HIGH) ∧
    (ctx.weatherCode = some 2 →
      ((ctx.hour ≥ 18 ∨ ctx.hour ≤ 6) → (computeRiskLevel dist ctx data).1 = RiskLevel.HIGH) ∧
      (ctx.hour < 18 → 6 < ctx.hour → (computeRiskLevel dist ctx data).1 = RiskLevel.MED)) ∧
    (ctx.weatherCode ≠ some 7 → ctx.weatherCode ≠ some 2 →
      (computeRiskLevel dist ctx data).1 = RiskLevel.LOW) := by
  have hred : computeRiskLevel dist ctx data
      = (weatherHeuristic ctx.weatherCode (some ctx.hour), weatherName ctx.weatherCode) := by
    rcases h with h | ⟨d, hd, h⟩
    · rw [h]; rfl
    · subst hd
      show computeRiskLevelWithData dist ctx d = _
      unfold computeRiskLevelWithData
      rcases h with h | h
      · rw [h]
      · rw [h]
  rw [hred]
  refine ⟨?_, ?_, ?_⟩
  · intro h7
    show weatherHeuristic ctx.weatherCode (some ctx.hour) = RiskLevel.HIGH
    unfold weatherHeuristic
    rw [if_pos h7]
  · intro h2
    have hne7 : ¬ ctx.weatherCode = some 7 := by rw [h2]; simp
    constructor
    · intro hh
      show weatherHeuristic ctx.weatherCode (some ctx.hour) = RiskLevel.HIGH
      unfold weatherHeuristic
      rw [if_neg hne7, if_pos h2]
      show (if ctx.hour ≥ 18 ∨ ctx.hour ≤ 6 then RiskLevel.HIGH else RiskLevel.MED)
        = RiskLevel.HIGH
      rw [if_pos hh]
    · intro hlt hgt
      show weatherHeuristic ctx.weatherCode (some ctx.hour) = RiskLevel.MED
      unfold weatherHeuristic
      rw [if_neg hne7, if_pos h2]
      show (if ctx.hour ≥ 18 ∨ ctx.hour ≤ 6 then RiskLevel.HIGH else RiskLevel.MED)
        = RiskLevel.MED
      rw [if_neg (by omega)]
  · intro h7 h2
    show weatherHeuristic ctx.weatherCode (some ctx.hour) = RiskLevel.LOW
    unfold weatherHeuristic
    rw [if_neg h7, if_neg h2]

theorem c5_witness :
    (computeRiskLevel distZero ⟨0, 0, 2, 5, 3, some 2, none⟩ none).1 = RiskLevel.HIGH :=
  ((c5_heuristic_fallback distZero ⟨0, 0, 2, 5, 3, some 2, none⟩ none (Or.inl rfl)).2.1
    rfl).1 (Or.inr (by norm_num))

/-! ## AlertsPage.tsx: geometric primitives

Distances are valued in `WithTop ℚ`: the JS code starts its running minima at
`Infinity`, which `⊤` models; all produced vertex distances are finite. -/

/- Batteries marks the core ℚ arithmetic `@[irreducible]`, which blocks
elaboration-time evaluation (`decide`) of concrete geometric instances even
though the kernel itself can reduce them; restore the default transparency. -/
attribute [local semireducible] Rat.add Rat.sub Rat.mul

/-- Kernel-computable rational division: `qdiv a b = a / b` (lemma
`qdiv_eq_div`).  Mathlib's field `/` on ℚ does not reduce inside the kernel,
which would make concrete ray-casting instances impossible to evaluate, so the
embedding uses this equivalent form.  `qdiv a 0 = 0`, but the source only
divides under a guard that forces the denominator nonzero. -/
def qdiv (a b : ℚ) : ℚ :=
  if b.num < 0 then mkRat (-(a.num * b.den)) (a.den * b.num.natAbs)
  else mkRat (a.num * b.den) (a.den * b.num.natAbs)

theorem qdiv_eq_div (a b : ℚ) : qdiv a b = a / b := by
  by_cases hb0 : b = 0
  · subst hb0
    unfold qdiv
    norm_num
  · have hbnum : b.num ≠ 0 := Rat.num_ne_zero.mpr hb0
    have haden : ((a.den : ℚ)) ≠ 0 := Nat.cast_ne_zero.mpr a.den_nz
    have hbnq : ((b.num : ℚ)) ≠ 0 := Int.cast_ne_zero.mpr hbnum
    have haden2 : ((a.den : ℚ)) ≠ 0 := Nat.cast_ne_zero.mpr a.den_nz
    have hbden2 : ((b.den : ℚ)) ≠ 0 := Nat.cast_ne_zero.mpr b.den_nz
    have hA : ((a.num : ℚ)) = a * (a.den : ℚ) := (div_eq_iff haden2).mp (Rat.num_div_den a)
    have hB : ((b.num : ℚ)) = b * (b.den : ℚ) := (div_eq_iff hbden2).mp (Rat.num_div_den b)
    unfold qdiv
    by_cases hneg : b.num < 0
    · have hbnegq : ((b.num : ℚ)) < 0 := by exact_mod_cast hneg
      rw [if_pos hneg, Rat.mkRat_eq_div]
      push_cast [Int.cast_natAbs]
      rw [abs_of_neg hbnegq]
      rw [div_eq_div_iff (mul_ne_zero haden (neg_ne_zero.mpr hbnq)) hb0]
      rw [hA, hB]
      ring
    · have hbnegq : (0 : ℚ) ≤ ((b.num : ℚ)) := by exact_mod_cast not_lt.mp hneg
      rw [if_neg hneg, Rat.mkRat_eq_div]
      push_cast [Int.cast_natAbs]
      rw [abs_of_nonneg hbnegq]
      rw [div_eq_div_iff (mul_ne_zero haden hbnq) hb0]
      rw [hA, hB]
      ring

/-- The ray-casting loop's index pairs: `for (let i = 0, j = n - 1; i < n; j = i++)`
visits `(polygon[i], polygon[j])` with `j = i - 1` and `j = n - 1` for `i = 0`. -/
def pipEdges (ring : List (ℚ × ℚ)) : List ((ℚ × ℚ) × (ℚ × ℚ)) :=
  match ring with
  | [] => []
  | r :: rs => (r :: rs).zip ((r :: rs).getLastD r :: r :: rs)

/-- `pointInsidePolygon` (AlertsPage.tsx 107–118): planar ray casting over an
ordered ring of `(lng, lat)` vertices; `xi` is the vertex latitude and `yi`
its longitude, exactly as the source reads `polygon[i][1]` / `polygon[i][0]`.
When the strict-inequality guard holds the two longitudes differ, so the ℚ
division is the JS one; when it fails the `&&` short-circuits in JS and the
total ℚ division (zero on zero denominator) is irrelevant to the result. -/
def pointInsidePolygon (lat lon : ℚ) (polygon : List (ℚ × ℚ)) : Bool :=
  (pipEdges polygon).foldl
    (fun inside e =>
      let xi := e.1.2
      let yi := e.1.1
      let xj := e.2.2
      let yj := e.2.1
      if (decide (yi > lon) != decide (yj > lon))
          && decide (lat < qdiv ((xj - xi) * (lon - yi)) (yj - yi) + xi)
      then !inside else inside)
    false

/-- The running-minimum loop shape shared by `minDistanceToRingM` and
`pointToMultiPolygonDistanceM`: `if (d < min) min = d` starting at `Infinity`. -/
def foldMin {α : Type} (f : α → WithTop ℚ) (l : List α) : WithTop ℚ :=
  l.foldl (fun mn x => if f x < mn then f x else mn) ⊤

/-- `minDistanceToRingM` (AlertsPage.tsx 119–127): minimum of the vertex
distances `haversineM(lat, lon, latp, lng)` over the ring's `[lng, latp]`
entries — `Infinity` on an empty ring. -/
def minDistanceToRingM (dist : Dist) (lat lon : ℚ) (ring : List (ℚ × ℚ)) : WithTop ℚ :=
  foldMin (fun v => ((dist lat lon v.2 v.1 : ℚ) : WithTop ℚ)) ring

/-- `pointToPolygonDistanceM` (AlertsPage.tsx 128–133): zero if inside the
outer ring, else the ring-vertex minimum; hole rings (`coords[1..]`) are
never read. -/
def pointToPolygonDistanceM (dist : Dist) (lat lon : ℚ)
    (coords : List (List (ℚ × ℚ))) : WithTop ℚ :=
  let outer := coords.headD []
  if pointInsidePolygon lat lon outer then 0 else minDistanceToRingM dist lat lon outer

/-- `pointToMultiPolygonDistanceM` (AlertsPage.tsx 134–141). -/
def pointToMultiPolygonDistanceM (dist : Dist) (lat lon : ℚ)
    (mp : List (List (List (ℚ × ℚ)))) : WithTop ℚ :=
  foldMin (fun poly => pointToPolygonDistanceM dist lat lon poly) mp

example : pointInsidePolygon (mkRat 1 2) (mkRat 1 2) [(0,0),(0,1),(1,1),(1,0)] = true := by decide

example : pointInsidePolygon 5 5 [(0,0),(0,1),(1,1),(1,0)] = false := by decide

theorem foldMin_spec {α : Type} (f : α → WithTop ℚ) (l : List α) (acc : WithTop ℚ) :
    (∀ x ∈ l, l.foldl (fun mn x => if f x < mn then f x else mn) acc ≤ f x) ∧
    l.foldl (fun mn x => if f x < mn then f x else mn) acc ≤ acc ∧
    (l.foldl (fun mn x => if f x < mn then f x else mn) acc = acc ∨
      ∃ x ∈ l, l.foldl (fun mn x => if f x < mn then f x else mn) acc = f x) := by
  induction l generalizing acc with
  | nil =>
    refine ⟨?_, le_refl _, Or.inl rfl⟩
    intro x hx; cases hx
  | cons a t ih =>
    rw [List.foldl_cons]
    have hstep_le_acc : (if f a < acc then f a else acc) ≤ acc := by
      by_cases h : f a < acc
      · rw [if_pos h]; exact le_of_lt h
      · rw [if_neg h]
    have hstep_le_fa : (if f a < acc then f a else acc) ≤ f a := by
      by_cases h : f a < acc
      · rw [if_pos h]
      · rw [if_neg h]; exact not_lt.mp h
    obtain ⟨ih1, ih2, ih3⟩ := ih (if f a < acc then f a else acc)
    refine ⟨?_, le_trans ih2 hstep_le_acc, ?_⟩
    · intro x hx
      rcases List.mem_cons.mp hx with hx' | hx'
      · rw [hx']; exact le_trans ih2 hstep_le_fa
      · exact ih1 x hx'
    · rcases ih3 with h | ⟨x, hx, hfx⟩
      · by_cases hlt : f a < acc
        · rw [if_pos hlt] at h ⊢
          exact Or.inr ⟨a, List.mem_cons_self _ _, h⟩
        · rw [if_neg hlt] at h ⊢
          exact Or.inl h
      · exact Or.inr ⟨x, List.mem_cons_of_mem _ hx, hfx⟩

/-! ## Claim C7: point-to-(multi)polygon distance -/

/-- C7: the point-to-polygon distance is 0 when the point-in-polygon test
accepts the outer ring; otherwise it is the minimum over the outer ring's
vertices of the (abstracted great-circle) distance, holes being ignored
entirely; and the multipolygon distance is the minimum of the polygon
distances, `⊤` (JS `Infinity`) on an empty collection. -/
theorem c7_polygon_distance (dist : Dist) (lat lon : ℚ)
    (coords : List (List (ℚ × ℚ))) (mp : List (List (List (ℚ × ℚ)))) :
    (pointInsidePolygon lat lon (coords.headD []) = true →
      pointToPolygonDistanceM dist lat lon coords = 0) ∧
    (pointInsidePolygon lat lon (coords.headD []) = false →
      (∀ v ∈ coords.headD [], pointToPolygonDistanceM dist lat lon coords ≤
          ((dist lat lon v.2 v.1 : ℚ) : WithTop ℚ)) ∧
      (coords.headD [] ≠ [] → ∃ v ∈ coords.headD [],
          pointToPolygonDistanceM dist lat lon coords
            = ((dist lat lon v.2 v.1 : ℚ) : WithTop ℚ))) ∧
    (∀ outer holes, pointToPolygonDistanceM dist lat lon (outer :: holes)
        = pointToPolygonDistanceM dist lat lon [outer]) ∧
    (pointToMultiPolygonDistanceM dist lat lon [] = ⊤) ∧
    (∀ poly ∈ mp, pointToMultiPolygonDistanceM dist lat lon mp
        ≤ pointToPolygonDistanceM dist lat lon poly) ∧
    (mp ≠ [] → ∃ poly ∈ mp, pointToMultiPolygonDistanceM dist lat lon mp
        = pointToPolygonDistanceM dist lat lon poly) := by
  refine ⟨?_, ?_, ?_, rfl, ?_, ?_⟩
  · intro h
    unfold pointToPolygonDistanceM
    rw [if_pos h]
  · intro h
    unfold pointToPolygonDistanceM minDistanceToRingM foldMin
    rw [if_neg (by rw [h]; exact Bool.false_ne_true)]
    obtain ⟨h1, _, h3⟩ := foldMin_spec
      (fun v => ((dist lat lon v.2 v.1 : ℚ) : WithTop ℚ)) (coords.headD []) ⊤
    refine ⟨h1, ?_⟩
    intro hne
    rcases h3 with htop | hx
    · cases hout : coords.headD [] with
      | nil => exact absurd hout hne
      | cons v vs =>
        exfalso
        have := h1 v (by rw [hout]; exact List.mem_cons_self _ _)
        rw [htop] at this
        exact absurd (top_le_iff.mp this) (by simp)
    · exact hx
  · intro outer holes
    rfl
  · intro poly hpoly
    exact (foldMin_spec (fun q => pointToPolygonDistanceM dist lat lon q) mp ⊤).1 poly hpoly
  · intro hne
    obtain ⟨h1, _, h3⟩ := foldMin_spec (fun q => pointToPolygonDistanceM dist lat lon q) mp ⊤
    rcases h3 with htop | hx
    · cases hmp : mp with
      | nil => exact absurd hmp hne
      | cons poly rest =>
        subst hmp
        refine ⟨poly, List.mem_cons_self _ _, ?_⟩
        have hle := h1 poly (List.mem_cons_self _ _)
        have hmdef : pointToMultiPolygonDistanceM dist lat lon (poly :: rest)
            = List.foldl (fun mn x => if pointToPolygonDistanceM dist lat lon x < mn
                then pointToPolygonDistanceM dist lat lon x else mn) ⊤ (poly :: rest) := rfl
        rw [hmdef, htop]
        rw [htop] at hle
        exact (top_le_iff.mp hle).symm
    · exact hx

def sqRing : List (ℚ × ℚ) := [(0,0),(0,1),(1,1),(1,0)]

theorem c7_witness :
    pointToPolygonDistanceM distZero (mkRat 1 2) (mkRat 1 2) [sqRing] = 0 ∧
    pointToMultiPolygonDistanceM distZero 0 0 [] = ⊤ :=
  ⟨(c7_polygon_distance distZero (mkRat 1 2) (mkRat 1 2) [sqRing] []).1 (by decide),
   (c7_polygon_distance distZero 0 0 [] []).2.2.2.1⟩

/-! ## alertsService.ts: the official-incident adapter `fetchVicIncidents`

The adapter walks the feed's GeoJSON features, normalizes each geometry to a
single `[lon, lat]` pair (`g.type === "Point" ? g.coordinates :
Array.isArray(g.coordinates[0]) ? g.coordinates[0] : []`), drops non-finite
pairs, geofences by the haversine distance to the cycle's position, and maps
survivors to `AlertLite`s with a 30-minute TTL. -/

/-- A JSON value as the geometry `coordinates` field carries it: a number
(`none` models NaN / non-finite) or an array. -/
inductive JVal where
  | num : Option ℚ → JVal
  | arr : List JVal → JVal

/-- JS `Number(...)` on the shapes occurring here: numbers pass through,
`Number([]) = 0`, a one-element array coerces to its element, an array of two
or more elements is NaN. -/
def toNum : JVal → Option ℚ
  | .num q => q
  | .arr [] => some 0
  | .arr [v] => toNum v
  | .arr (_ :: _ :: _) => none

/-- `Number(coords?.[i])`: an out-of-range index reads `undefined`, whose
`Number` is NaN. -/
def numAt (l : List JVal) (i : Nat) : Option ℚ :=
  match l.get? i with
  | none => none
  | some v => toNum v

/-- The feed properties the adapter reads (all string-valued in the feed). -/
structure VicProps where
  name      : Option String
  title     : Option String
  eventName : Option String
  id        : Option String
  eventId   : Option String
  guid      : Option String
  location  : Option String
  locality  : Option String
  area      : Option String
deriving DecidableEq, Repr

structure VicFeature where
  gtype : Option String       -- `g.type` when `typeof g.type === "string"`
  coordinates : Option JVal   -- `g.coordinates` when present
  props : VicProps

/-- `String.trim` (drop leading and trailing whitespace), written over the
character list so that concrete instances evaluate inside the kernel. -/
def strim (s : String) : String :=
  ⟨((s.data.dropWhile Char.isWhitespace).reverse.dropWhile Char.isWhitespace).reverse⟩

/-- `stringFirst` (alertsService.ts 221–228) on the string-valued candidates
it is applied to: the first value with a nonempty trim, trimmed; else `""`. -/
def stringFirst : List (Option String) → String
  | [] => ""
  | none :: rest => stringFirst rest
  | some s :: rest => if strim s ≠ "" then strim s else stringFirst rest

/-- The coordinate normalization (alertsService.ts 112–116): a Point keeps
its `coordinates`; any other string-typed geometry takes `coordinates[0]`
when that is an array, else `[]`. -/
def extractCoords (f : VicFeature) : List JVal :=
  match f.coordinates, f.gtype with
  | some (JVal.arr l), some t =>
    if t = "Point" then l
    else
      match l.head? with
      | some (JVal.arr l0) => l0
      | _ => []
  | _, _ => []

/-- One iteration of the feature loop of `fetchVicIncidents`
(alertsService.ts 108–148), as the pushed record if any.  `coordLabel`
abstracts the float formatting `latF.toFixed(5), lonF.toFixed(5)` and `fbId`
the fallback id `latF.toFixed(5)_lonF.toFixed(5)_toIso(ts)` — float/date
string formatting that an exact embedding cannot express and that affects
neither geofencing nor the TTL. -/
def vicFeatureRecord (dist : Dist) (lat lon : ℚ) (now : Int)
    (coordLabel : ℚ → ℚ → String) (fbId : ℚ → ℚ → VicFeature → String)
    (f : VicFeature) : Option AlertLite :=
  let coords := extractCoords f
  match numAt coords 0, numAt coords 1 with
  | some lonF, some latF =>
    if dist lat lon latF lonF > 250 then none
    else
      let name := stringFirst [f.props.name, f.props.title, f.props.eventName]
      if name = "" then none
      else
        let loc := stringFirst [f.props.location, f.props.locality, f.props.area,
          some (coordLabel latF lonF)]
        let id0 := stringFirst [f.props.id, f.props.eventId, f.props.guid]
        let id := if id0 = "" then fbId latF lonF f else id0
        some { clusterId := some ("vic#" ++ id), incidentType := "vic_incident",
               severity := some "medium", expiresAt := some (now + 30 * 60),
               lat := some latF, lng := some lonF, ackable := some false,
               description := some name, address := some loc,
               agoText := some "0 minutes ago" }
  | _, _ => none

/-- The whole loop: surviving features in feed order. -/
def fetchVicIncidentsModel (dist : Dist) (lat lon : ℚ) (now : Int)
    (coordLabel : ℚ → ℚ → String) (fbId : ℚ → ℚ → VicFeature → String)
    (feats : List VicFeature) : List AlertLite :=
  feats.filterMap (vicFeatureRecord dist lat lon now coordLabel fbId)

/-- An array literal of two or more entries — the shape of a coordinate pair,
of a ring of at least two vertices, and of a polygon of at least two rings.
JS `Number` of any such array is NaN. -/
def IsPairLike (v : JVal) : Prop := ∃ x y more, v = JVal.arr (x :: y :: more)

def cl0 : ℚ → ℚ → String := fun _ _ => "0.00000, 0.00000"

def fb0 : ℚ → ℚ → VicFeature → String := fun _ _ _ => "fb"

def polyFeature : VicFeature :=
  ⟨some "Polygon",
   some (JVal.arr [JVal.arr
      [JVal.arr [JVal.num (some 0), JVal.num (some 0)],
       JVal.arr [JVal.num (some 0), JVal.num (some 1)],
       JVal.arr [JVal.num (some 1), JVal.num (some 1)],
       JVal.arr [JVal.num (some 1), JVal.num (some 0)]]]),
   ⟨some "Flood", none, none, some "evt1", none, none, some "Somewhere", none, none⟩⟩

def pointFeature : VicFeature :=
  ⟨some "Point", some (JVal.arr [JVal.num (some 0), JVal.num (some 0)]),
   ⟨some "Crash", none, none, some "evt2", none, none, none, none, none⟩⟩

example : vicFeatureRecord distZero 0 0 1000 cl0 fb0 polyFeature = none := by decide

example : fetchVicIncidentsModel distZero 0 0 1000 cl0 fb0 [pointFeature]
    = [{ clusterId := some "vic#evt2", incidentType := "vic_incident",
         severity := some "medium", expiresAt := some 2800,
         lat := some 0, lng := some 0, ackable := some false,
         description := some "Crash", address := some "0.00000, 0.00000",
         agoText := some "0 minutes ago" }] := by decide

/-! ## Claim C6: geofencing of the official-incident step (corrected) -/

/-- C6 counterexample: a well-formed Polygon feature whose outer ring contains
the cycle's position — its containment-aware distance is 0 ≤ 250 m — yields
no AlertRecord in the aggregator's official-incident step: the adapter reads
`coordinates[0]` (a ring, not a coordinate) as a `[lon, lat]` pair, `Number`
of a ring is NaN, and the feature is dropped. -/
theorem c6_counterexample :
    pointToPolygonDistanceM distZero (mkRat 1 2) (mkRat 1 2) [sqRing] = 0 ∧
    vicFeatureRecord distZero (mkRat 1 2) (mkRat 1 2) 1000 cl0 fb0 polyFeature = none ∧
    fetchVicIncidentsModel distZero (mkRat 1 2) (mkRat 1 2) 1000 cl0 fb0 [polyFeature]
      = [] := by
  refine ⟨by decide, by decide, by decide⟩

/-- C6 (amended): in the aggregator's official-incident step every feature is
geofenced on a single extracted `[lon, lat]` pair — a Point's own coordinates,
or `coordinates[0]` for every other geometry type.  Every produced record's
`expiresAt` is fetch time plus 30 minutes, and a record is only produced when
the extracted pair is finite and its distance to the cycle's position is at
most 250 m.  Polygon and MultiPolygon features never yield a record (their
`coordinates[0]` is an array of two or more entries, which coerces to NaN):
the containment-aware polygon distance is used only by the AlertsPage view,
not by this aggregator. -/
theorem c6_amended_geofence (dist : Dist) (lat lon : ℚ) (now : Int)
    (coordLabel : ℚ → ℚ → String) (fbId : ℚ → ℚ → VicFeature → String)
    (feats : List VicFeature) :
    (∀ r ∈ fetchVicIncidentsModel dist lat lon now coordLabel fbId feats,
        r.expiresAt = some (now + 30 * 60)) ∧
    (∀ f ∈ feats, ∀ r, vicFeatureRecord dist lat lon now coordLabel fbId f = some r →
        ∃ lonF latF, numAt (extractCoords f) 0 = some lonF ∧
          numAt (extractCoords f) 1 = some latF ∧
          dist lat lon latF lonF ≤ 250 ∧ r.lat = some latF ∧ r.lng = some lonF) ∧
    (∀ f ∈ feats, ∀ t, f.gtype = some t → t ≠ "Point" →
        (∃ e es rest, f.coordinates = some (JVal.arr (JVal.arr (e :: es) :: rest)) ∧
          IsPairLike e) →
        vicFeatureRecord dist lat lon now coordLabel fbId f = none) := by
  have hsome : ∀ f r, vicFeatureRecord dist lat lon now coordLabel fbId f = some r →
      ∃ lonF latF, numAt (extractCoords f) 0 = some lonF ∧
        numAt (extractCoords f) 1 = some latF ∧
        dist lat lon latF lonF ≤ 250 ∧ r.lat = some latF ∧ r.lng = some lonF ∧
        r.expiresAt = some (now + 30 * 60) := by
    intro f r h
    simp only [vicFeatureRecord] at h
    split at h
    · rename_i lonF latF h0 h1
      by_cases hd : dist lat lon latF lonF > 250
      · rw [if_pos hd] at h; cases h
      · rw [if_neg hd] at h
        refine ⟨lonF, latF, h0, h1, not_lt.mp hd, ?_⟩
        by_cases hname :
            stringFirst [f.props.name, f.props.title, f.props.eventName] = ""
        · rw [if_pos hname] at h; cases h
        · rw [if_neg hname] at h
          injection h with h
          rw [← h]
          exact ⟨rfl, rfl, rfl⟩
    · cases h
  refine ⟨?_, ?_, ?_⟩
  · intro r hr
    rcases List.mem_filterMap.mp hr with ⟨f, _, hf⟩
    obtain ⟨_, _, _, _, _, _, _, he⟩ := hsome f r hf
    exact he
  · intro f _ r h
    obtain ⟨lonF, latF, h0, h1, hd, hlat, hlng, _⟩ := hsome f r h
    exact ⟨lonF, latF, h0, h1, hd, hlat, hlng⟩
  · rintro f _ t hty hnp ⟨e, es, rest, hco, x, y, more, hpair⟩
    have hext : extractCoords f = JVal.arr (x :: y :: more) :: es := by
      simp [extractCoords, hco, hty, hpair, hnp]
    simp only [vicFeatureRecord]
    rw [hext]
    rfl

theorem c6_witness :
    ({ clusterId := some "vic#evt2", incidentType := "vic_incident",
       severity := some "medium", expiresAt := some (1000 + 30 * 60),
       lat := some 0, lng := some 0, ackable := some false,
       description := some "Crash", address := some "0.00000, 0.00000",
       agoText := some "0 minutes ago" } : AlertLite).expiresAt
        = some (1000 + 30 * 60) ∧
    vicFeatureRecord distZero 0 0 1000 cl0 fb0 polyFeature = none := by
  constructor
  · exact (c6_amended_geofence distZero 0 0 1000 cl0 fb0 [pointFeature]).1 _ (by decide)
  · exact (c6_amended_geofence distZero 0 0 1000 cl0 fb0 [polyFeature]).2.2 polyFeature
      (List.mem_cons_self _ _) "Polygon" rfl (by decide)
      ⟨JVal.arr [JVal.num (some 0), JVal.num (some 0)],
       [JVal.arr [JVal.num (some 0), JVal.num (some 1)],
        JVal.arr [JVal.num (some 1), JVal.num (some 1)],
        JVal.arr [JVal.num (some 1), JVal.num (some 0)]],
       [], rfl, JVal.num (some 0), JVal.num (some 0), [], rfl⟩

/-! ## Claim C9: supersession of in-flight cycles (alertsService.ts 157–217)

`fetchOnce` is re-entrant: a new call aborts the previous `inflight`
controller and replaces it.  The abort only stops the previous cycle while it
is suspended on the backend `fetch` — that rejection reaches the outer
`catch`, which returns on `AbortError`.  A rejection of `res.json()` is
swallowed by `.catch(() => ({ok:false, alerts:[], serverNow:0}))`, and a
rejection of the vic fetch is swallowed inside `fetchVicIncidents`, which
returns `[]`: in both cases the cancelled cycle continues to steps 4–6 and
publishes.  The `finally` clause write `inflight = null` runs whenever a
cycle ends, even when `inflight` meanwhile holds a newer cycle's controller.

The machine below embeds this control flow with its suspension points.  Each
cycle's would-be source payloads are given by `specOf`; an event aimed at a
cycle in the wrong phase is a no-op. -/

/-- What the three sources would deliver to a given cycle. -/
structure CycleSpec where
  backend : List AlertLite
  weather : List AlertLite
  vic : List AlertLite

inductive CyclePhase where
  | notStarted   -- fetchOnce not yet invoked
  | ackMain      -- suspended on `await fetch(LIST_URL, ...)`
  | ackJson      -- suspended on `await res.json().catch(...)`
  | ackVic       -- suspended on `await fetchVicIncidents(...)`
  | finished
deriving DecidableEq, Repr

structure CycleSt where
  phase : CyclePhase
  aborted : Bool
  backendGot : List AlertLite
  weatherGot : List AlertLite
deriving DecidableEq, Repr

def initCycle : CycleSt := ⟨CyclePhase.notStarted, false, [], []⟩

structure AggState where
  cycles : List (Nat × CycleSt)
  inflight : Option Nat                       -- the module-level `inflight`
  published : Option (Nat × List AlertLite)   -- last write of `cs.alerts.list`
deriving DecidableEq, Repr

def getCycle (cs : List (Nat × CycleSt)) (c : Nat) : CycleSt :=
  ((cs.find? (fun p => p.1 == c)).map (fun p => p.2)).getD initCycle

def setCycle (cs : List (Nat × CycleSt)) (c : Nat) (f : CycleSt → CycleSt) :
    List (Nat × CycleSt) :=
  cs.map (fun p => if p.1 == c then (c, f p.2) else p)

inductive AggEvent where
  | start (c : Nat)      -- fetchOnce invoked for cycle c
  | mainSettle (c : Nat) -- the backend fetch settles (response, or abort rejection)
  | mainFail (c : Nat)   -- the backend fetch fails with a network error
  | jsonSettle (c : Nat) -- res.json() settles (payload, or abort/parse default)
  | vicSettle (c : Nat)  -- fetchVicIncidents settles (list, or [] on abort/failure)
deriving DecidableEq, Repr

def stepAgg (specOf : Nat → CycleSpec) (now : Int) (s : AggState) :
    AggEvent → AggState
  | .start c =>
    -- `if (inflight) inflight.abort(); inflight = new AbortController();`
    let cs1 := match s.inflight with
      | some c' => setCycle s.cycles c' (fun st => { st with aborted := true })
      | none => s.cycles
    { s with cycles := setCycle cs1 c (fun st => { st with phase := CyclePhase.ackMain })
             inflight := some c }
  | .mainSettle c =>
    if (getCycle s.cycles c).phase = CyclePhase.ackMain then
      if (getCycle s.cycles c).aborted then
        -- AbortError propagates to the outer catch → return; finally: inflight = null
        { s with cycles := setCycle s.cycles c (fun st => { st with phase := CyclePhase.finished })
                 inflight := none }
      else
        { s with cycles := setCycle s.cycles c (fun st => { st with phase := CyclePhase.ackJson }) }
    else s
  | .mainFail c =>
    if (getCycle s.cycles c).phase = CyclePhase.ackMain then
      -- network error → console.error, no publish; finally: inflight = null
      { s with cycles := setCycle s.cycles c (fun st => { st with phase := CyclePhase.finished })
               inflight := none }
    else s
  | .jsonSettle c =>
    if (getCycle s.cycles c).phase = CyclePhase.ackJson then
      -- an abort rejection is swallowed by `.catch` into the empty default;
      -- afterwards localStorage weather is read synchronously
      { s with cycles := setCycle s.cycles c (fun st =>
          { st with phase := CyclePhase.ackVic
                    backendGot := if st.aborted then [] else (specOf c).backend
                    weatherGot := (specOf c).weather }) }
    else s
  | .vicSettle c =>
    if (getCycle s.cycles c).phase = CyclePhase.ackVic then
      -- an abort (or failure) rejection is swallowed inside fetchVicIncidents → [];
      -- then steps 4–6 run synchronously and publish; finally: inflight = null
      let st := getCycle s.cycles c
      let vic := if st.aborted then [] else (specOf c).vic
      { s with cycles := setCycle s.cycles c (fun st => { st with phase := CyclePhase.finished })
               published := some (c, fetchOnceMerge now st.backendGot st.weatherGot vic)
               inflight := none }
    else s

def runAgg (specOf : Nat → CycleSpec) (now : Int) (s : AggState)
    (evs : List AggEvent) : AggState :=
  evs.foldl (stepAgg specOf now) s

/-- Two cycles, A (id 0) and B (id 1), not yet started. -/
def initAB : AggState := ⟨[(0, initCycle), (1, initCycle)], none, none⟩

/-- A's sources contain the record `a`; B's backend contains the record `b`. -/
def specAB : Nat → CycleSpec := fun c =>
  if c = 0 then ⟨[mkRec (some "a") (some 100) none], [], [mkRec (some "v") (some 90) none]⟩
  else ⟨[mkRec (some "b") (some 200) none], [], []⟩

/-- The failing interleaving: cycle B starts (and aborts A) while A awaits the
vic feed; A's vic fetch rejects on the abort, `fetchVicIncidents` swallows the
rejection into `[]`, and A publishes; B's backend fetch then fails, so B
publishes nothing. -/
def c9trace : List AggEvent :=
  [AggEvent.start 0, AggEvent.mainSettle 0, AggEvent.jsonSettle 0,
   AggEvent.start 1, AggEvent.vicSettle 0, AggEvent.mainFail 1]

/-- C9 (demonstration of the code bug): after `start 1`, cycle A is cancelled
while still fetching (suspended on the vic feed) and has published nothing —
but A's results are still used: the final published snapshot is A's merge of
its backend record with a degraded vic list, not one reflecting B's inputs,
and B's record is absent from it. -/
theorem c9_cancelled_cycle_publishes :
    (getCycle (runAgg specAB 0 initAB
        [AggEvent.start 0, AggEvent.mainSettle 0, AggEvent.jsonSettle 0,
         AggEvent.start 1]).cycles 0).aborted = true ∧
    (runAgg specAB 0 initAB
        [AggEvent.start 0, AggEvent.mainSettle 0, AggEvent.jsonSettle 0,
         AggEvent.start 1]).published = none ∧
    (runAgg specAB 0 initAB c9trace).published
      = some (0, [mkRec (some "a") (some 100) none]) ∧
    mkRec (some "b") (some 200) none ∉ [mkRec (some "a") (some 100) none] := by
  refine ⟨by decide, by decide, by decide, by decide⟩

end CycSafe
